import Mathlib

/-!
Verification of the NanoTrade stimulus/verification pipeline.

The development shallowly embeds the Python sources:
  * `check_results.py`   — golden-file parser and result verifier (`CheckResults`),
  * `generate_stimuli.py` — scaler, bar encoder, stream assembler, file writer
    (`GenerateStimuli`),
  * `finnhub_fetch.py`   — the alternative tiered price scaler (`FinnhubFetch`).

Python string operations (`strip`, `startswith`, `endswith`, `split`) are
modelled by executable functions on the underlying character lists, so that
all predicates are kernel-decidable.  Real (float) arithmetic is modelled by
rational arithmetic; `int(...)` / `.astype(int)` truncation toward zero is
`pytrunc`, Python's banker's rounding `round` is `pyround`.
-/

/-- Python `str.strip()` on the character list: drop whitespace at both ends. -/
def stripChars (l : List Char) : List Char :=
  ((l.dropWhile Char.isWhitespace).reverse.dropWhile Char.isWhitespace).reverse

/-- Python `line.strip()`. -/
def pyStrip (s : String) : String := ⟨stripChars s.data⟩

/-- Python `s.startswith(pre)`. -/
def pyStartsWith (s pre : String) : Bool := decide (s.data.take pre.data.length = pre.data)

/-- Python `s.endswith(suf)`. -/
def pyEndsWith (s suf : String) : Bool :=
  decide (s.data.reverse.take suf.data.length = suf.data.reverse)

/-- Python `s[:-n]` (drop the last `n` characters). -/
def pyDropRight (s : String) (n : Nat) : String := ⟨s.data.take (s.data.length - n)⟩

/-- Split a character list at the first occurrence of `c`:
`some (before, after)` when `c` occurs, `none` otherwise. -/
def splitOnce (c : Char) : List Char → Option (List Char × List Char)
  | [] => none
  | x :: xs =>
    if x = c then some ([], xs)
    else (splitOnce c xs).map (fun p => (x :: p.1, p.2))

/-- Python `s.split(sep, 1)[1]` for a one-character separator: everything after
the first occurrence of `c` (used only where the separator is known present). -/
def afterFirst (c : Char) (s : String) : String :=
  match splitOnce c s.data with
  | some p => ⟨p.2⟩
  | none => ⟨[]⟩

/-- Split a character list at every occurrence of `c` (Python `s.split(c)`). -/
def splitCharAux (c : Char) : List Char → List Char → List (List Char)
  | [], acc => [acc.reverse]
  | x :: xs, acc =>
    if x = c then acc.reverse :: splitCharAux c xs [] else splitCharAux c xs (x :: acc)

/-- Python `s.split(c)` for a one-character separator. -/
def pySplit (c : Char) (s : String) : List String :=
  (splitCharAux c s.data []).map (fun l => ⟨l⟩)

namespace CheckResults

/-- Alert name → bit index in `FIRED_RULE_MASK` (the `RULE_BITS` dict). -/
def RULE_BITS (s : String) : Option Nat :=
  if s = "PRICE_SPIKE" then some 0
  else if s = "VOLUME_DRY" then some 1
  else if s = "VOLUME_SURGE" then some 2
  else if s = "TRADE_VELOCITY" then some 3
  else if s = "ORDER_IMBALANCE" then some 4
  else if s = "SPREAD_WIDENING" then some 5
  else if s = "VOLATILITY" then some 6
  else if s = "FLASH_CRASH" then some 7
  else none

/-- Alert name → bit index in `FIRED_ML_MASK` (the `ML_BITS` dict). -/
def ML_BITS (s : String) : Option Nat :=
  if s = "NORMAL" then some 0
  else if s = "PRICE_SPIKE" then some 1
  else if s = "VOLUME_SURGE" then some 2
  else if s = "FLASH_CRASH" then some 3
  else if s = "ORDER_IMBALANCE" then some 4
  else if s = "QUOTE_STUFFING" then some 5
  else none

/-- Result of `parse_golden`: ticker, date and the expected label list. -/
structure Golden where
  ticker : String
  date : String
  expected : List String
  deriving DecidableEq, Repr

/-- One iteration of the `parse_golden` loop body on a stripped line. -/
def parseGoldenLine (g : Golden) (line : String) : Golden :=
  let l := pyStrip line
  if pyStartsWith l "TICKER=" then { g with ticker := afterFirst '=' l }
  else if pyStartsWith l "DATE=" then { g with date := afterFirst '=' l }
  else if pyStartsWith l "EXPECTED=" then
    { g with expected := (pySplit ',' (afterFirst '=' l)).map pyStrip }
  else g

/-- `parse_golden`: fold the loop body over the file's lines. -/
def parse_golden (lines : List String) : Golden :=
  lines.foldl parseGoldenLine ⟨"", "", []⟩

/-- Does one expected label count as satisfied, given the parsed rule mask and
the (optional) ML mask?  This is the body of the `for alert in expected:` loop
of `check` (lines 97–124): an alert lands in `passed` exactly when this is
`true`, and in `failed` otherwise. -/
def labelSatisfied (ruleMask : Nat) (mlMask? : Option Nat) (alert : String) : Bool :=
  if pyEndsWith alert "_ML" then
    -- `_ML` suffix: only ML detection is expected
    match ML_BITS (pyDropRight alert 3), mlMask? with
    | some b, some m => m &&& (1 <<< b) != 0
    | _, _ => true
  else
    match RULE_BITS alert with
    | some b =>
      if ruleMask &&& (1 <<< b) != 0 then true
      else
        -- also accept if ML caught it
        match ML_BITS alert, mlMask? with
        | some bm, some m => m &&& (1 <<< bm) != 0
        | _, _ => false
    | none => true

/-- The `passed` list accumulated by `check` (modulo the purely cosmetic
`(ML)` / `(?)` name decorations, which do not affect counting). -/
def passedLabels (expected : List String) (ruleMask : Nat) (mlMask? : Option Nat) :
    List String :=
  expected.filter (labelSatisfied ruleMask mlMask?)

/-- The `n_passed`/`total` pair printed as `Score: n/total`. -/
def score (expected : List String) (ruleMask : Nat) (mlMask? : Option Nat) : Nat × Nat :=
  ((passedLabels expected ruleMask mlMask?).length, expected.length)

/-- The boolean verdict of `check` (`True` = PASS), given the parsed golden
expectation list and the two masks extracted by `parse_result`.  `none` for
the rule mask reproduces the early `[ERROR]` return. -/
def check (expected : List String) (ruleMask? : Option Nat) (mlMask? : Option Nat) :
    Bool :=
  match ruleMask? with
  | none => false
  | some ruleMask =>
    if expected = ["NONE"] then
      -- normal baseline: should not fire FLASH_CRASH (bit 7)
      if ruleMask &&& (1 <<< 7) != 0 then false else true
    else
      (score expected ruleMask mlMask?).1 = (score expected ruleMask mlMask?).2

end CheckResults

/-- Python `int(x)` / numpy `.astype(int)`: truncation toward zero. -/
def pytrunc (q : ℚ) : ℤ := if 0 ≤ q then ⌊q⌋ else ⌈q⌉

/-- Python 3 `round(x)`: round half to even (banker's rounding). -/
def pyround (q : ℚ) : ℤ :=
  let f := ⌊q⌋
  let r := q - f
  if r < 1 / 2 then f
  else if 1 / 2 < r then f + 1
  else if f % 2 = 0 then f else f + 1

/-- numpy `np.clip(x, lo, hi)` = `minimum(maximum(x, lo), hi)`. -/
def npClip (x lo hi : ℚ) : ℚ := min (max x lo) hi

/-- numpy `.min()` of a series (series are nonempty in every call site). -/
def listMin : List ℚ → ℚ
  | [] => 0
  | x :: xs => xs.foldl min x

/-- numpy `.max()` of a series. -/
def listMax : List ℚ → ℚ
  | [] => 0
  | x :: xs => xs.foldl max x

/-- numpy `np.median`: middle of the sorted data, or the mean of the two
middle elements for even length. -/
def npMedian (l : List ℚ) : ℚ :=
  let s := List.insertionSort (· ≤ ·) l
  let n := l.length
  if n % 2 = 1 then s.getD (n / 2) 0
  else (s.getD (n / 2 - 1) 0 + s.getD (n / 2) 0) / 2

namespace GenerateStimuli

/-- One stimulus cycle: the `(ui_in, uio_in)` byte pair. -/
abbrev Word := Nat × Nat

/-- Clip an integer into `[lo, hi]` and view it as a `Nat`
(`int(np.clip(x, lo, hi))` for integer input and bounds `0 ≤ lo`). -/
def clipToNat (x lo hi : ℤ) : Nat := (max lo (min x hi)).toNat

/-- `encode_price`: type bits `00`, 12-bit payload split low/high 6 bits. -/
def encode_price (p : ℤ) : Word :=
  let q := clipToNat p 0 4095
  ((0 <<< 6) ||| (q % 64), (q >>> 6) % 64)

/-- `encode_volume`: type bits `01`. -/
def encode_volume (v : ℤ) : Word :=
  let q := clipToNat v 0 4095
  ((1 <<< 6) ||| (q % 64), (q >>> 6) % 64)

/-- `encode_buy`: type bits `10`, 6-bit quantity, `uio_in = 0`. -/
def encode_buy (qty : ℤ) : Word := ((2 <<< 6) ||| clipToNat qty 0 63, 0)

/-- `encode_sell`: type bits `11`. -/
def encode_sell (qty : ℤ) : Word := ((3 <<< 6) ||| clipToNat qty 0 63, 0)

/-- `encode_idle`: no input this cycle. -/
def encode_idle : Word := (0, 0)

/-- The 12-bit PRICE/VOLUME payload carried by a word:
`{uio_in[5:0], ui_in[5:0]}` as reassembled by the chip. -/
def payload12 (w : Word) : Nat := (w.2 % 64) <<< 6 ||| (w.1 % 64)

/-- The scaled chip value of one price `p` belonging to the series `l`
(`scale_price` with default `target_baseline=200`, `target_range=800` is the
elementwise application of this map, with `p_min`/`p_range` taken over the
whole series). -/
def scalePriceOne (l : List ℚ) (p : ℚ) : ℤ :=
  let pmin := listMin l
  let pmax := listMax l
  let prange := if pmin < pmax then pmax - pmin else 1
  pytrunc (npClip (200 + (p - pmin) / prange * 800) 1 4090)

/-- `scale_price`: map a whole series to chip units. -/
def scale_price (l : List ℚ) : List ℤ := l.map (scalePriceOne l)

/-- The scaled chip value of one volume `v` belonging to the series `vols`
(`scale_volume` with defaults `target_normal=100`, `target_max=3000`). -/
def scaleVolumeOne (vols : List ℚ) (v : ℚ) : ℤ :=
  let m := npMedian vols
  let m := if m = 0 then 1 else m
  pytrunc (npClip (v / m * 100) 1 3000)

/-- `scale_volume`: map a whole volume series to chip units. -/
def scale_volume (vols : List ℚ) : List ℤ := vols.map (scaleVolumeOne vols)

/-- Number of buy order words emitted for one bar: `int(round(buy_pressure * 6))`. -/
def nBuys (buy_pressure : ℚ) : ℤ := pyround (buy_pressure * 6)

/-- `bar_to_cycles`: one OHLCV bar as a list of `(ui_in, uio_in)` cycles —
4 price ticks (open, high, low, close), 2 volume ticks, 6 buy/sell orders of
fixed quantity 10 split by pressure, then 4 idle cycles.  A negative
`n_sells` would make Python's `range` empty, hence the `Int.toNat` images. -/
def bar_to_cycles (open_p high_p low_p close_p volume : ℤ) (buy_pressure : ℚ) :
    List Word :=
  [encode_price open_p, encode_price high_p, encode_price low_p, encode_price close_p]
    ++ List.replicate 2 (encode_volume volume)
    ++ List.replicate (nBuys buy_pressure).toNat (encode_buy 10)
    ++ List.replicate (6 - nBuys buy_pressure).toNat (encode_sell 10)
    ++ List.replicate 4 encode_idle

/-- One OHLCV bar of the input DataFrame. -/
structure Bar where
  opn : ℚ
  high : ℚ
  low : ℚ
  close : ℚ
  volume : ℚ
  deriving DecidableEq, Repr

/-- The concatenated price series `[Open ‖ High ‖ Low ‖ Close]` that
`df_to_stimulus` feeds to `scale_price` as one array. -/
def allPrices (d : List Bar) : List ℚ :=
  d.map Bar.opn ++ d.map Bar.high ++ d.map Bar.low ++ d.map Bar.close

/-- Buy pressure derived from the candle direction
(`np.where(delta > 0, 0.7, np.where(delta < 0, 0.3, 0.5))`). -/
def buyPressure (b : Bar) : ℚ :=
  if b.close - b.opn > 0 then 7 / 10
  else if b.close - b.opn < 0 then 3 / 10
  else 1 / 2

/-- The 16-word block contributed by bar `b` of DataFrame `d`: prices scaled
against the concatenated series, volume scaled against the volume column. -/
def barBlock (d : List Bar) (b : Bar) : List Word :=
  bar_to_cycles
    (scalePriceOne (allPrices d) b.opn)
    (scalePriceOne (allPrices d) b.high)
    (scalePriceOne (allPrices d) b.low)
    (scalePriceOne (allPrices d) b.close)
    (scaleVolumeOne (d.map Bar.volume) b.volume)
    (buyPressure b)

/-- `df_to_stimulus`: 32 warm-up cycles of `encode_idle`, then every bar's
cycle block in bar order. -/
def df_to_stimulus (d : List Bar) : List Word :=
  List.replicate 32 encode_idle ++ (d.map (barBlock d)).flatten

/-- Is a word a buy order word (type bits `10`, i.e. `ui_in ∈ [128, 192)`)? -/
def isBuyWord (w : Word) : Bool := 128 ≤ w.1 && w.1 < 192

/-- Is a word a sell order word (type bits `11`, i.e. `ui_in ∈ [192, 256)`)? -/
def isSellWord (w : Word) : Bool := 192 ≤ w.1

/-- Number of buy order words in a cycle list. -/
def countBuys (ws : List Word) : Nat := ws.countP isBuyWord

/-- Number of sell order words in a cycle list. -/
def countSells (ws : List Word) : Nat := ws.countP isSellWord

/-- Lowercase hexadecimal digit. -/
def hexDigit (n : Nat) : Char :=
  if n < 10 then Char.ofNat (48 + n) else Char.ofNat (87 + n)

/-- Two-digit lowercase hexadecimal rendering of a byte (Python `f"{b:02x}"`). -/
def hex2 (b : Nat) : String := ⟨[hexDigit (b / 16 % 16), hexDigit (b % 16)]⟩

/-- The lines `write_stimulus_memh` writes to the output file, in order:
two comment headers, then one `XXYY` hex line per cycle. -/
def memhLines (cycles : List Word) : List String :=
  "// NanoTrade stimulus file — format: ui_in[7:0] uio_in[7:0]"
    :: ("// Total cycles: " ++ toString cycles.length)
    :: cycles.map (fun w => hex2 w.1 ++ hex2 w.2)

/-- File-system model of `write_stimulus_memh`: the writer opens the target
path directly with `open(filepath, "w")` (create/truncate) and then writes
one line at a time; there is no temporary file, rename, or delete-on-error.
`fileAfter cycles k` is the content visible at the target path after the
writer has completed `k` file operations (operation 0 = the open, operation
`i+1` = writing line `i`) and then failed: `none` = file absent (failure
before the open), otherwise the lines written so far. -/
def fileAfter (cycles : List Word) (k : Nat) : Option (List String) :=
  if k = 0 then none else some ((memhLines cycles).take (k - 1))

end GenerateStimuli

namespace FinnhubFetch

/-- `scale_price` of `finnhub_fetch.py`: tiered dollar→chip-unit scaling,
clamped from above by `min(4095, ·)` only. -/
def scale_price (dollar_price : ℚ) : ℤ :=
  if dollar_price > 1000 then min 4095 (pytrunc (dollar_price / 4 * 4))
  else if dollar_price > 500 then min 4095 (pytrunc (dollar_price * 2))
  else min 4095 (pytrunc (dollar_price * 4))

/-- `scale_volume` of `finnhub_fetch.py` with its default `scale_factor=0.05`. -/
def scale_volume (shares : ℤ) : ℤ := min 4095 (pytrunc ((shares : ℚ) * (5 / 100)))

end FinnhubFetch

/-! ## Numeric helper lemmas -/

theorem pyround_ge_int (q : ℚ) (n : ℤ) (h : (n : ℚ) ≤ q) : n ≤ pyround q := by
  have h' : n ≤ ⌊q⌋ := Int.le_floor.mpr h
  simp only [pyround]
  split_ifs <;> omega

theorem pyround_le_int (q : ℚ) (n : ℤ) (h : q ≤ (n : ℚ)) : pyround q ≤ n := by
  have h' : ⌊q⌋ ≤ n := by
    have := Int.floor_le_floor h
    simpa using this
  have hfloor : (⌊q⌋ : ℚ) ≤ q := Int.floor_le q
  simp only [pyround]
  split_ifs with h1 h2 h3
  · exact h'
  · -- here 1/2 < q - ⌊q⌋, so ⌊q⌋ < n
    have : (⌊q⌋ : ℚ) < (n : ℚ) := by linarith
    have : ⌊q⌋ < n := by exact_mod_cast this
    omega
  · exact h'
  · -- here q - ⌊q⌋ = 1/2 exactly
    have hr : (1 : ℚ) / 2 ≤ q - ⌊q⌋ := le_of_not_lt h1
    have : (⌊q⌋ : ℚ) < (n : ℚ) := by linarith
    have : ⌊q⌋ < n := by exact_mod_cast this
    omega

theorem pyround_one_le (q : ℚ) (h : 1 / 2 < q) : 1 ≤ pyround q := by
  rcases le_or_lt 1 q with h1 | h1
  · exact pyround_ge_int q 1 (by exact_mod_cast h1)
  · have hf : ⌊q⌋ = 0 := Int.floor_eq_zero_iff.mpr (Set.mem_Ico.mpr ⟨by linarith, h1⟩)
    simp only [pyround, hf, Int.cast_zero, sub_zero]
    split_ifs with h2 h3 h4 <;> first | omega | linarith

theorem pyround_le_of_lt_half (q : ℚ) (n : ℤ) (h : q < (n : ℚ) + 1 / 2) : pyround q ≤ n := by
  have h' : ⌊q⌋ ≤ n := by
    have : ⌊q⌋ < n + 1 := Int.floor_lt.mpr (by push_cast; linarith)
    omega
  have hfloor : (⌊q⌋ : ℚ) ≤ q := Int.floor_le q
  simp only [pyround]
  split_ifs with h1 h2 h3
  · exact h'
  · have hr : (1 : ℚ) / 2 < q - ⌊q⌋ := h2
    have : (⌊q⌋ : ℚ) < (n : ℚ) := by linarith
    have : ⌊q⌋ < n := by exact_mod_cast this
    omega
  · exact h'
  · have hr : (1 : ℚ) / 2 ≤ q - ⌊q⌋ := le_of_not_lt h1
    have : (⌊q⌋ : ℚ) < (n : ℚ) := by linarith
    have : ⌊q⌋ < n := by exact_mod_cast this
    omega

namespace GenerateStimuli

/-! ## Bar-encoder helper lemmas -/

theorem nBuys_nonneg (p : ℚ) (h : 0 ≤ p) : 0 ≤ nBuys p :=
  pyround_ge_int _ 0 (by push_cast; nlinarith)

theorem nBuys_le_six (p : ℚ) (h : p ≤ 1) : nBuys p ≤ 6 :=
  pyround_le_int _ 6 (by push_cast; nlinarith)

theorem nBuys_one_le (p : ℚ) (h : 1 / 12 < p) : 1 ≤ nBuys p :=
  pyround_one_le _ (by nlinarith)

theorem nBuys_le_five (p : ℚ) (h : p < 11 / 12) : nBuys p ≤ 5 :=
  pyround_le_of_lt_half _ 5 (by push_cast; nlinarith)

theorem encode_price_fst_lt (p : ℤ) : (encode_price p).1 < 64 := by
  simp only [encode_price]
  have : clipToNat p 0 4095 % 64 < 64 := Nat.mod_lt _ (by norm_num)
  simpa using this

theorem encode_volume_fst_lt (v : ℤ) : (encode_volume v).1 < 128 := by
  have h1 : (1 <<< 6 : ℕ) < 2 ^ 7 := by decide
  have h2 : clipToNat v 0 4095 % 64 < 2 ^ 7 := by
    have := Nat.mod_lt (clipToNat v 0 4095) (show 0 < 64 by norm_num)
    omega
  simpa [encode_volume] using Nat.or_lt_two_pow h1 h2

theorem isBuyWord_encode_price (p : ℤ) : isBuyWord (encode_price p) = false := by
  have := encode_price_fst_lt p
  simp [isBuyWord]
  omega

theorem isBuyWord_encode_volume (v : ℤ) : isBuyWord (encode_volume v) = false := by
  have := encode_volume_fst_lt v
  simp [isBuyWord]
  omega

theorem isSellWord_encode_price (p : ℤ) : isSellWord (encode_price p) = false := by
  have := encode_price_fst_lt p
  simp [isSellWord]
  omega

theorem isSellWord_encode_volume (v : ℤ) : isSellWord (encode_volume v) = false := by
  have := encode_volume_fst_lt v
  simp [isSellWord]
  omega

theorem countBuys_bar (o h l c v : ℤ) (p : ℚ) :
    countBuys (bar_to_cycles o h l c v p) = (nBuys p).toNat := by
  simp [countBuys, bar_to_cycles, List.countP_append, List.countP_replicate,
    List.countP_cons, isBuyWord_encode_price, isBuyWord_encode_volume]
  norm_num [show isBuyWord (encode_buy 10) = true by decide,
    show isBuyWord (encode_sell 10) = false by decide,
    show isBuyWord encode_idle = false by decide]

theorem countSells_bar (o h l c v : ℤ) (p : ℚ) :
    countSells (bar_to_cycles o h l c v p) = (6 - nBuys p).toNat := by
  simp [countSells, bar_to_cycles, List.countP_append, List.countP_replicate,
    List.countP_cons, isSellWord_encode_price, isSellWord_encode_volume]
  norm_num [show isSellWord (encode_buy 10) = false by decide,
    show isSellWord (encode_sell 10) = true by decide,
    show isSellWord encode_idle = false by decide]

theorem bar_to_cycles_length (o h l c v : ℤ) (p : ℚ) :
    (bar_to_cycles o h l c v p).length = 10 + (nBuys p).toNat + (6 - nBuys p).toNat := by
  simp [bar_to_cycles, List.length_append, List.length_replicate]
  omega

theorem bar_to_cycles_length16 (o h l c v : ℤ) (p : ℚ) (h0 : 0 ≤ p) (h1 : p ≤ 1) :
    (bar_to_cycles o h l c v p).length = 16 := by
  have hb0 := nBuys_nonneg p h0
  have hb6 := nBuys_le_six p h1
  rw [bar_to_cycles_length]
  omega

end GenerateStimuli

/-! ## Series min/max helper lemmas -/

theorem foldl_min_le_init (xs : List ℚ) (a : ℚ) : xs.foldl min a ≤ a := by
  induction xs generalizing a with
  | nil => simp
  | cons x xs ih =>
    calc (x :: xs).foldl min a = xs.foldl min (min a x) := rfl
    _ ≤ min a x := ih _
    _ ≤ a := min_le_left _ _

theorem foldl_min_le_mem (xs : List ℚ) (a p : ℚ) (h : p ∈ xs) : xs.foldl min a ≤ p := by
  induction xs generalizing a with
  | nil => cases h
  | cons x xs ih =>
    rcases List.mem_cons.mp h with rfl | h'
    · calc (p :: xs).foldl min a = xs.foldl min (min a p) := rfl
      _ ≤ min a p := foldl_min_le_init _ _
      _ ≤ p := min_le_right _ _
    · exact ih _ h'

theorem listMin_le (l : List ℚ) (p : ℚ) (h : p ∈ l) : listMin l ≤ p := by
  cases l with
  | nil => cases h
  | cons x xs =>
    rcases List.mem_cons.mp h with rfl | h'
    · exact foldl_min_le_init xs p
    · exact foldl_min_le_mem xs x p h'

theorem le_foldl_max_init (xs : List ℚ) (a : ℚ) : a ≤ xs.foldl max a := by
  induction xs generalizing a with
  | nil => simp
  | cons x xs ih =>
    calc a ≤ max a x := le_max_left _ _
    _ ≤ xs.foldl max (max a x) := ih _
    _ = (x :: xs).foldl max a := rfl

theorem le_foldl_max_mem (xs : List ℚ) (a p : ℚ) (h : p ∈ xs) : p ≤ xs.foldl max a := by
  induction xs generalizing a with
  | nil => cases h
  | cons x xs ih =>
    rcases List.mem_cons.mp h with rfl | h'
    · calc p ≤ max a p := le_max_right _ _
      _ ≤ xs.foldl max (max a p) := le_foldl_max_init _ _
      _ = (p :: xs).foldl max a := rfl
    · exact ih _ h'

theorem le_listMax (l : List ℚ) (p : ℚ) (h : p ∈ l) : p ≤ listMax l := by
  cases l with
  | nil => cases h
  | cons x xs =>
    rcases List.mem_cons.mp h with rfl | h'
    · exact le_foldl_max_init xs p
    · exact le_foldl_max_mem xs x p h'

namespace GenerateStimuli

/-- The clipped scaler value is at least the lower clip bound 1. -/
theorem npClip_one_le (x : ℚ) : 1 ≤ npClip x 1 4090 := by
  simp only [npClip]
  exact le_min (le_max_right _ _) (by norm_num)

/-- Mid: the scaled value before truncation, for series bounds taken from `l`. -/
theorem scalePriceOne_mono (l : List ℚ) (p1 p2 : ℚ)
    (h1 : p1 ∈ l) (h2 : p2 ∈ l) (hlt : p1 < p2) :
    scalePriceOne l p1 ≤ scalePriceOne l p2 := by
  have hmin : listMin l ≤ p1 := listMin_le l p1 h1
  have hmax : p2 ≤ listMax l := le_listMax l p2 h2
  have hrange : listMin l < listMax l := lt_of_le_of_lt hmin (lt_of_lt_of_le hlt hmax)
  simp only [scalePriceOne, if_pos hrange]
  have hpos : (0 : ℚ) < listMax l - listMin l := by linarith
  have hcore : 200 + (p1 - listMin l) / (listMax l - listMin l) * 800 ≤
      200 + (p2 - listMin l) / (listMax l - listMin l) * 800 := by
    have := div_le_div_of_nonneg_right (by linarith : p1 - listMin l ≤ p2 - listMin l) hpos.le
    nlinarith
  have hclip : npClip (200 + (p1 - listMin l) / (listMax l - listMin l) * 800) 1 4090 ≤
      npClip (200 + (p2 - listMin l) / (listMax l - listMin l) * 800) 1 4090 :=
    min_le_min (max_le_max hcore le_rfl) le_rfl
  have hlo1 := npClip_one_le (200 + (p1 - listMin l) / (listMax l - listMin l) * 800)
  have hlo2 := npClip_one_le (200 + (p2 - listMin l) / (listMax l - listMin l) * 800)
  simp only [pytrunc, if_pos (by linarith : (0 : ℚ) ≤ npClip (200 + (p1 - listMin l) / (listMax l - listMin l) * 800) 1 4090),
    if_pos (by linarith : (0 : ℚ) ≤ npClip (200 + (p2 - listMin l) / (listMax l - listMin l) * 800) 1 4090)]
  exact Int.floor_le_floor hclip

/-- Flat series: the scaler yields the baseline constant 200. -/
theorem scalePriceOne_flat (l : List ℚ) (p : ℚ)
    (hflat : listMin l = listMax l) (hmem : p ∈ l) :
    scalePriceOne l p = 200 := by
  have hmin : listMin l ≤ p := listMin_le l p hmem
  have hmax : p ≤ listMax l := le_listMax l p hmem
  have hp : p = listMin l := le_antisymm (hflat ▸ hmax) hmin
  have hnr : ¬ listMin l < listMax l := by rw [hflat]; exact lt_irrefl _
  simp only [scalePriceOne, if_neg hnr, ← hp]
  norm_num [npClip, pytrunc]

end GenerateStimuli

namespace GenerateStimuli

/-- C9: range-anchored price scaling is monotonic within one series, and a
flat (zero-range) series is mapped to the baseline constant 200 with no
division-by-zero error. -/
theorem scale_price_monotone_flat (l : List ℚ) (p1 p2 : ℚ) :
    (p1 ∈ l → p2 ∈ l → p1 < p2 → scalePriceOne l p1 ≤ scalePriceOne l p2) ∧
    (listMin l = listMax l → p1 ∈ l → scalePriceOne l p1 = 200) :=
  ⟨fun h1 h2 hlt => scalePriceOne_mono l p1 p2 h1 h2 hlt,
   fun hflat hmem => scalePriceOne_flat l p1 hflat hmem⟩

/-- Witness for `scale_price_monotone_flat` at concrete inputs. -/
theorem scale_price_monotone_flat_w :
    scalePriceOne [1, 3] 1 ≤ scalePriceOne [1, 3] 3 ∧ scalePriceOne [5] 5 = 200 :=
  ⟨(scale_price_monotone_flat [1, 3] 1 3).1 (by simp) (by simp) (by norm_num),
   (scale_price_monotone_flat [5] 5 5).2 rfl (by simp)⟩

/-- C5: for every scaled bar and every pressure in `[0, 1]`, `bar_to_cycles`
emits exactly 16 wire words: the first 4 are the price ticks
open/high/low/close, the next 2 the volume ticks, the buy and sell order
words number 6 together, and the remaining 4 words are idle. -/
theorem bar_encoder_emits_sixteen (o h l c v : ℤ) (p : ℚ) (h0 : 0 ≤ p) (h1 : p ≤ 1) :
    (bar_to_cycles o h l c v p).length = 16 ∧
    (bar_to_cycles o h l c v p).take 4 =
      [encode_price o, encode_price h, encode_price l, encode_price c] ∧
    ((bar_to_cycles o h l c v p).drop 4).take 2 = [encode_volume v, encode_volume v] ∧
    countBuys (bar_to_cycles o h l c v p) + countSells (bar_to_cycles o h l c v p) = 6 := by
  refine ⟨bar_to_cycles_length16 o h l c v p h0 h1, rfl, rfl, ?_⟩
  rw [countBuys_bar, countSells_bar]
  have hb0 := nBuys_nonneg p h0
  have hb6 := nBuys_le_six p h1
  omega

/-- Witness for `bar_encoder_emits_sixteen` at pressure 1/2. -/
theorem bar_encoder_emits_sixteen_w :
    (0 : ℚ) ≤ 1 / 2 ∧ (1 / 2 : ℚ) ≤ 1 ∧
      (bar_to_cycles 200 300 100 250 50 (1 / 2)).length = 16 :=
  ⟨by norm_num, by norm_num,
   (bar_encoder_emits_sixteen 200 300 100 250 50 (1 / 2) (by norm_num) (by norm_num)).1⟩

/-- C6 counterexample: at the nonzero buy pressure 1/100 the encoder emits
no buy order word at all (`int(round(0.06)) = 0`; there is no floor at 1),
refuting "if p > 0 the per-bar encoding contains at least one buy order
word". -/
theorem small_pressure_no_buy_cex :
    (0 : ℚ) < 1 / 100 ∧ countBuys (bar_to_cycles 200 300 100 250 50 (1 / 100)) = 0 := by
  refine ⟨by norm_num, ?_⟩
  rw [countBuys_bar]
  norm_num [nBuys, pyround]

/-- C6 (corrected): the buy and sell order word counts always sum to the
fixed budget 6, but the per-direction floor is not 1 at every nonzero
pressure: a buy word is guaranteed only for `p > 1/12` (where
`round(6p) ≥ 1`) and a sell word only for `p < 11/12`. -/
theorem order_words_thresholds (o h l c v : ℤ) (p : ℚ) (h0 : 0 ≤ p) (h1 : p ≤ 1) :
    (1 / 12 < p → 1 ≤ countBuys (bar_to_cycles o h l c v p)) ∧
    (p < 11 / 12 → 1 ≤ countSells (bar_to_cycles o h l c v p)) ∧
    countBuys (bar_to_cycles o h l c v p) + countSells (bar_to_cycles o h l c v p) = 6 := by
  have hb0 := nBuys_nonneg p h0
  have hb6 := nBuys_le_six p h1
  rw [countBuys_bar, countSells_bar]
  refine ⟨fun hp => ?_, fun hp => ?_, by omega⟩
  · have := nBuys_one_le p hp
    omega
  · have := nBuys_le_five p hp
    omega

/-- Witness for `order_words_thresholds` at pressure 1/2. -/
theorem order_words_thresholds_w :
    1 ≤ countBuys (bar_to_cycles 200 300 100 250 50 (1 / 2)) ∧
    1 ≤ countSells (bar_to_cycles 200 300 100 250 50 (1 / 2)) ∧
    countBuys (bar_to_cycles 200 300 100 250 50 (1 / 2)) +
      countSells (bar_to_cycles 200 300 100 250 50 (1 / 2)) = 6 :=
  have t := order_words_thresholds 200 300 100 250 50 (1 / 2) (by norm_num) (by norm_num)
  ⟨t.1 (by norm_num), t.2.1 (by norm_num), t.2.2⟩

/-- Buy pressure is one of 0.3, 0.5, 0.7, hence nonnegative. -/
theorem buyPressure_nonneg (b : Bar) : 0 ≤ buyPressure b := by
  simp only [buyPressure]
  split_ifs <;> norm_num

/-- Buy pressure is one of 0.3, 0.5, 0.7, hence at most one. -/
theorem buyPressure_le_one (b : Bar) : buyPressure b ≤ 1 := by
  simp only [buyPressure]
  split_ifs <;> norm_num

/-- Every per-bar block of the assembled stream has exactly 16 words. -/
theorem barBlock_length (d : List Bar) (b : Bar) : (barBlock d b).length = 16 :=
  bar_to_cycles_length16 _ _ _ _ _ _ (buyPressure_nonneg b) (buyPressure_le_one b)

/-- C1 counterexample: on the one-bar DataFrame with open 10, high 12,
low 9, close 11, the stream's first warm-up word is the hardware-default
all-zero idle word `(0, 0)`, whose 12-bit payload 0 differs from the first
bar's scaled open price 466 — the warm-up does not replicate the first
bar's encoding. -/
theorem warmup_is_idle_cex :
    (df_to_stimulus [⟨10, 12, 9, 11, 100⟩]).head? = some encode_idle ∧
    encode_idle = (0, 0) ∧ payload12 (0, 0) = 0 ∧
    scalePriceOne (allPrices [⟨10, 12, 9, 11, 100⟩]) 10 = 466 := by
  refine ⟨rfl, rfl, rfl, ?_⟩
  show scalePriceOne [10, 12, 9, 11] 10 = 466
  norm_num [scalePriceOne, listMin, listMax, npClip, pytrunc,
    List.foldl, min_def, max_def]

/-- C1 (corrected): the assembled stream starts with 32 hardware-default
idle (all-zero) warm-up words — not a replication of the first bar's
encoding — followed by each bar's 16-word block in bar order, so
`cycleIndex = 32 + 16 * barIndex + offset`. -/
theorem warmup_idle_and_blocks (d : List Bar) :
    (df_to_stimulus d).take 32 = List.replicate 32 encode_idle ∧
    (df_to_stimulus d).drop 32 = (d.map (barBlock d)).flatten ∧
    (df_to_stimulus d).length = 32 + 16 * d.length := by
  refine ⟨?_, ?_, ?_⟩
  · have h := List.take_left (List.replicate 32 encode_idle) ((d.map (barBlock d)).flatten)
    simpa [df_to_stimulus] using h
  · have h := List.drop_left (List.replicate 32 encode_idle) ((d.map (barBlock d)).flatten)
    simpa [df_to_stimulus] using h
  · rw [df_to_stimulus, List.length_append, List.length_replicate, List.length_flatten]
    have : (d.map (barBlock d)).map List.length = d.map (fun _ => 16) := by
      rw [List.map_map]
      exact List.map_congr_left fun b _ => barBlock_length d b
    rw [this]
    simp [List.map_const', List.sum_replicate, smul_eq_mul]
    ring

/-- C8 counterexample: a failure of `write_stimulus_memh` after the first
header line leaves a nonempty, incomplete file visible at the target path. -/
theorem partial_write_visible_cex :
    fileAfter [(0, 0)] 2 ≠ none ∧
    fileAfter [(0, 0)] 2 ≠ some (memhLines [(0, 0)]) ∧
    fileAfter [(0, 0)] 2 =
      some ["// NanoTrade stimulus file — format: ui_in[7:0] uio_in[7:0]"] := by
  refine ⟨by decide, by decide, by decide⟩

/-- C8 (corrected): writing is not atomic.  `write_stimulus_memh` opens the
target path directly and writes line by line, so for every stimulus stream
there is a failure point after which the file visible at the target path is
a proper (strictly shorter) truncation of the intended content rather than
being absent or complete. -/
theorem write_not_atomic (cycles : List Word) :
    ∃ k, fileAfter cycles k ≠ none ∧ fileAfter cycles k ≠ some (memhLines cycles) ∧
      ∃ s, fileAfter cycles k = some s ∧ s.length < (memhLines cycles).length := by
  refine ⟨1, by simp [fileAfter], ?_, [], by simp [fileAfter], ?_⟩
  · simp only [fileAfter, if_neg one_ne_zero, List.take_zero, ne_eq, Option.some.injEq]
    intro hcontra
    simp [memhLines] at hcontra
  · simp [memhLines]

end GenerateStimuli

namespace FinnhubFetch

/-- C4 (code bug): the tiered finnhub scaler only clamps from above, so the
negative input −5 is mapped to −20, outside the documented 12-bit range
`[0, 4095]`. -/
theorem scale_price_negative_escape :
    scale_price (-5) = -20 ∧ scale_price (-5) < 0 := by
  have h : scale_price (-5) = -20 := by
    norm_num [scale_price, pytrunc]
    rw [show ((-20 : ℚ)) = ((-20 : ℤ) : ℚ) by norm_num, Int.ceil_intCast]
    norm_num
  exact ⟨h, by rw [h]; norm_num⟩

end FinnhubFetch

namespace CheckResults

/-- C2: with the `NONE` sentinel as golden expectation, the verdict is PASS
exactly when the rule mask's FLASH_CRASH bit (bit 7) is unset; every other
rule bit is free, and the ML mask is never consulted (the verdict equals the
one computed with no ML mask at all). -/
theorem none_sentinel_flash_only (rm : Nat) (mm? : Option Nat) :
    (check ["NONE"] (some rm) mm? = true ↔ rm &&& (1 <<< 7) = 0) ∧
    check ["NONE"] (some rm) mm? = check ["NONE"] (some rm) none := by
  constructor
  · simp only [check, if_pos rfl]
    by_cases h : rm &&& (1 <<< 7) = 0 <;> simp [h]
  · rfl

/-- C3: for a non-`_ML` label present in the rule-bit table, satisfaction is
exactly "rule bit set, or else (label in ML table, ML mask parsed, ML bit
set)"; the verdict is PASS iff every expected label is satisfied; and the
score is the satisfied count over the total count. -/
theorem rule_label_policy (e : List String) (rm : Nat) (mm? : Option Nat)
    (hne : e ≠ ["NONE"]) :
    (∀ a : String, pyEndsWith a "_ML" = false → ∀ b, RULE_BITS a = some b →
      (labelSatisfied rm mm? a = true ↔
        (rm &&& (1 <<< b) ≠ 0 ∨
          ∃ bm m, ML_BITS a = some bm ∧ mm? = some m ∧ m &&& (1 <<< bm) ≠ 0))) ∧
    (check e (some rm) mm? = true ↔ ∀ a ∈ e, labelSatisfied rm mm? a = true) ∧
    score e rm mm? = ((e.filter (labelSatisfied rm mm?)).length, e.length) := by
  refine ⟨?_, ?_, rfl⟩
  · intro a hml b hb
    simp only [labelSatisfied, hml, Bool.false_eq_true, if_false, hb]
    by_cases hr : rm &&& (1 <<< b) = 0
    · simp only [hr, bne_self_eq_false, Bool.false_eq_true, if_false]
      rcases hmlb : ML_BITS a with _ | bm <;> rcases mm? with _ | m <;>
        simp [hmlb, hr]
    · simp [hr]
  · simp only [check, if_neg hne, score, passedLabels]
    rw [decide_eq_true_eq, ← List.countP_eq_length_filter]
    exact List.countP_eq_length

/-- Witness for `rule_label_policy`: expected `[PRICE_SPIKE]` with rule bit
0 set passes. -/
theorem rule_label_policy_w :
    (["PRICE_SPIKE"] : List String) ≠ ["NONE"] ∧
    check ["PRICE_SPIKE"] (some 1) none = true :=
  ⟨by decide,
   ((rule_label_policy ["PRICE_SPIKE"] 1 none (by decide)).2.1).mpr (by decide)⟩

/-- C7: for a label carrying the `_ML` qualifier, satisfaction is decided
solely by the ML mask's bit for the base label when both the ML-bit mapping
entry and a parsed ML mask exist; if either is missing the label counts as
satisfied (lenient default); and the rule mask is never consulted (the
outcome is invariant under changing it). -/
theorem ml_label_policy (a : String) (rm rm' : Nat) (mm? : Option Nat)
    (h : pyEndsWith a "_ML" = true) :
    (∀ b m, ML_BITS (pyDropRight a 3) = some b → mm? = some m →
      (labelSatisfied rm mm? a = true ↔ m &&& (1 <<< b) ≠ 0)) ∧
    (ML_BITS (pyDropRight a 3) = none → labelSatisfied rm mm? a = true) ∧
    (mm? = none → labelSatisfied rm mm? a = true) ∧
    labelSatisfied rm mm? a = labelSatisfied rm' mm? a := by
  refine ⟨?_, ?_, ?_, ?_⟩
  · intro b m hb hm
    simp [labelSatisfied, h, hb, hm]
  · intro hb
    rcases mm? with _ | m <;> simp [labelSatisfied, h, hb]
  · intro hm
    subst hm
    rcases hmlb : ML_BITS (pyDropRight a 3) with _ | b <;>
      simp [labelSatisfied, h, hmlb]
  · simp [labelSatisfied, h]

/-- Witness for `ml_label_policy`: `FLASH_CRASH_ML` with ML bit 3 set is
satisfied regardless of the rule mask. -/
theorem ml_label_policy_w :
    pyEndsWith "FLASH_CRASH_ML" "_ML" = true ∧
    labelSatisfied 0 (some 8) "FLASH_CRASH_ML" = true :=
  ⟨by decide,
   ((ml_label_policy "FLASH_CRASH_ML" 0 255 (some 8) (by decide)).1 3 8
      (by decide) rfl).mpr (by decide)⟩

/-- A line that does not start (after stripping) with `EXPECTED=` leaves the
parsed expectation list unchanged. -/
theorem parseGoldenLine_expected (g : Golden) (l : String)
    (h : pyStartsWith (pyStrip l) "EXPECTED=" = false) :
    (parseGoldenLine g l).expected = g.expected := by
  simp only [parseGoldenLine]
  split_ifs with h1 h2 h3
  · rfl
  · rfl
  · exact absurd h3 (by simp [h])
  · rfl

/-- Folding `parse_golden` over lines none of which carries `EXPECTED=`
keeps the expectation list of the accumulator. -/
theorem foldl_parseGolden_expected (lines : List String) :
    ∀ g : Golden, (∀ l ∈ lines, pyStartsWith (pyStrip l) "EXPECTED=" = false) →
      (lines.foldl parseGoldenLine g).expected = g.expected := by
  induction lines with
  | nil => intro g _; rfl
  | cons x xs ih =>
    intro g h
    rw [List.foldl_cons, ih _ (fun l hl => h l (List.mem_cons_of_mem _ hl))]
    exact parseGoldenLine_expected g x (h x (List.mem_cons_self _ _))

/-- C10: a golden file with no `EXPECTED=` line parses to an empty
expectation list, and `check` on the empty expectation performs no per-label
comparison: it returns PASS with score `0/0`, and the empty list is not the
`NONE` sentinel. -/
theorem empty_expected_vacuous_pass (lines : List String) (rm : Nat) (mm? : Option Nat)
    (h : ∀ l ∈ lines, pyStartsWith (pyStrip l) "EXPECTED=" = false) :
    (parse_golden lines).expected = [] ∧
    check [] (some rm) mm? = true ∧
    score [] rm mm? = (0, 0) ∧ (([] : List String) ≠ ["NONE"]) := by
  refine ⟨foldl_parseGolden_expected lines _ h, ?_, rfl, by simp⟩
  simp [check, score, passedLabels]

/-- Witness for `empty_expected_vacuous_pass` on a golden file holding only
a `TICKER=` line. -/
theorem empty_expected_vacuous_pass_w :
    (parse_golden ["TICKER=GME"]).expected = [] ∧ check [] (some 5) (some 3) = true :=
  ⟨(empty_expected_vacuous_pass ["TICKER=GME"] 5 (some 3) (by decide)).1,
   (empty_expected_vacuous_pass ["TICKER=GME"] 5 (some 3) (by decide)).2.1⟩

end CheckResults
